import Mathlib

/-!
# Verification of the wordle-hints scraper core

Shallow embedding of `src/scripts/scraper.ts` (the authoritative variant per the
design notes; the near-duplicate `src/unnamed/part_000` differs in the extraction
heuristics).  Strings are modelled as `List Char` of Unicode scalar values; the
source's JavaScript string operations (`includes`, `trim`, `toUpperCase`,
`charAt`, regex matching) are translated operation by operation.  Numbers parsed
with `Number.parseFloat` from digit strings of the shape `\d+(\.\d+)?` are
modelled exactly as rationals.  Browser, file-system and timing effects are out
of scope (collaborators per the design): rendered page text, navigation success
and the parsed DOM are inputs; the record sink is an explicit output list.
-/

deriving instance DecidableEq for Except

namespace WordleHints

/-! ## Character classes and basic string operations -/

/-- The regex character class `[a-zA-Z]`, by code point. -/
def isAlphaChar (c : Char) : Bool :=
  (97 ≤ c.toNat && c.toNat ≤ 122) || (65 ≤ c.toNat && c.toNat ≤ 90)

/-- The regex character class `[0-9]` (`\d`), by code point. -/
def isDigitChar (c : Char) : Bool :=
  48 ≤ c.toNat && c.toNat ≤ 57

/-- White space stripped by JavaScript `String.prototype.trim` (the code points
relevant to the scraped pages). -/
def jsSpace (c : Char) : Bool :=
  c = ' ' || c = '\t' || c = '\n' || c = '\r' || c = '\u000B' || c = '\u000C' ||
  c = '\u00A0' || c = '\uFEFF' || c = '\u2028' || c = '\u2029'

/-- `s.trim()`: strip leading and trailing white space. -/
def trimCL (s : List Char) : List Char :=
  ((s.dropWhile jsSpace).reverse.dropWhile jsSpace).reverse

/-- Whether `pat` is a prefix of `s` (case sensitive), as Bool. -/
def isPrefixCL : List Char → List Char → Bool
  | [], _ => true
  | _ :: _, [] => false
  | a :: as, b :: bs => (a == b) && isPrefixCL as bs

/-- Whether `pat` is a prefix of `s` up to ASCII case (for `/i` regex flags and
case-insensitive literal replacement). -/
def isPrefixCI : List Char → List Char → Bool
  | [], _ => true
  | _ :: _, [] => false
  | a :: as, b :: bs => (Char.toLower a == Char.toLower b) && isPrefixCI as bs

/-- `hay.includes(needle)`: substring test, scanning start positions left to
right. -/
def containsSub (needle : List Char) : List Char → Bool
  | [] => isPrefixCL needle []
  | hay@(_ :: rest) => isPrefixCL needle hay || containsSub needle rest

/-- One fuel-indexed pass of `s.replace(/pat/gi, "")` for a literal pattern:
at each position either the (case-insensitive) literal is removed wholesale or
one character is kept.  Each step consumes at least one character of `s`, so
fuel `s.length` computes the untruncated result for the non-empty patterns the
source uses. -/
def removeAllGo (pat : List Char) : Nat → List Char → List Char
  | 0, s => s
  | fuel + 1, s =>
    match s with
    | [] => []
    | c :: rest =>
      if isPrefixCI pat s then removeAllGo pat fuel (s.drop pat.length)
      else c :: removeAllGo pat fuel rest

/-- `s.replace(/pat/gi, "")` for a non-empty literal pattern `pat`. -/
def removeAllCI (pat s : List Char) : List Char :=
  removeAllGo pat s.length s

/-- `s.toUpperCase()` over the basic latin range (the only range the scraped
English text exercises). -/
def upperCL (s : List Char) : List Char :=
  s.map Char.toUpper

/-- `s.toLowerCase()` over the basic latin range. -/
def lowerCL (s : List Char) : List Char :=
  s.map Char.toLower

/-! ## DefinitionParser (`extractDefinition`, scraper.ts lines 75–111) -/

/-- What the regex metacharacter `.` matches without the `s` flag: any
character except a line terminator. -/
def dotOk (c : Char) : Bool :=
  c != '\n' && c != '\r' && c != '\u2028' && c != '\u2029'

/-- Left curly quote, U+201C. -/
def openQuote : Char := '“'

/-- Right curly quote, U+201D. -/
def closeQuote : Char := '”'

/-- Matching `(.+?)\.?$` against the suffix `rest` that follows a lead-in
phrase.  The lazy group must be followed by an optional literal dot and then
the end of input, so the group is either all of `rest` or all but one final
dot; laziness prefers dropping the final dot. -/
def matchTail (rest : List Char) : Option (List Char) :=
  if 2 ≤ rest.length && rest.getLast? == some '.' && rest.dropLast.all dotOk then
    some rest.dropLast
  else if 1 ≤ rest.length && rest.all dotOk then
    some rest
  else
    none

/-- `text.match(/pat(.+?)\.?$/i)` for a literal lead-in `pat`: scan start
positions left to right; at each occurrence of the lead-in attempt the tail
match; the first position where the whole pattern succeeds wins. -/
def leadInScan (pat : List Char) : List Char → Option (List Char)
  | [] => none
  | s@(_ :: rest) =>
    if isPrefixCI pat s then
      match matchTail (s.drop pat.length) with
      | some g => some g
      | none => leadInScan pat rest
    else
      leadInScan pat rest

/-- Global matching of `/“([^“”]+)”?/g`: each match is an
opening curly quote, a non-empty run free of curly quotes, and an optional
closing curly quote; scanning resumes after each match.  Fuel decreases with
the scanned suffix, so fuel `s.length` is never exhausted. -/
def quotedGo : Nat → List Char → List (List Char)
  | 0, _ => []
  | _ + 1, [] => []
  | fuel + 1, c :: rest =>
    if c = openQuote then
      let body := rest.takeWhile (fun d => d != openQuote && d != closeQuote)
      if body.isEmpty then quotedGo fuel rest
      else
        let after := rest.drop body.length
        match after with
        | d :: after2 =>
          if d = closeQuote then (c :: (body ++ [d])) :: quotedGo fuel after2
          else (c :: body) :: quotedGo fuel after
        | [] => [c :: body]
    else
      quotedGo fuel rest

/-- `fullText.match(/“([^“”]+)”?/g)`, as the list of matched
substrings (`null` becomes the empty list). -/
def quotedSpans (s : List Char) : List (List Char) :=
  quotedGo s.length s

/-- `def.replace(/^“|”$/g, "")`: remove one leading opening quote,
then one trailing closing quote of the remainder. -/
def stripQuoteEnds (s : List Char) : List Char :=
  let s1 := match s with
    | c :: t => if c = openQuote then t else s
    | [] => []
  match s1.getLast? with
  | some c => if c = closeQuote then s1.dropLast else s1
  | none => s1

/-- The source's loop `while (cleaned.length > 0 && !/[a-zA-Z]/.test(last))
cleaned = cleaned.slice(0, -1)`: repeatedly discard the final character while
it is not a letter. -/
def dropTrailingNonAlpha (s : List Char) : List Char :=
  (s.reverse.dropWhile (fun c => !isAlphaChar c)).reverse

/-- Cleaning of one quoted span: trim, strip the quote characters, trim again,
then discard trailing non-letters. -/
def cleanDef (span : List Char) : List Char :=
  dropTrailingNonAlpha (trimCL (stripQuoteEnds (trimCL span)))

/-- From the text `g` captured by a lead-in pattern: trim it, extract the
curly-quoted spans, clean each, keep the non-empty ones; `null` when nothing
survives (also covering the source's `undefined` when no span matches). -/
def defsFrom (g : List Char) : Option (List (List Char)) :=
  let fullText := trimCL g
  let definitions := ((quotedSpans fullText).map cleanDef).filter (fun d => !d.isEmpty)
  if definitions.isEmpty then none else some definitions

/-- Lead-in template `/it could refer to (.+?)\.?$/i`. -/
def couldReferPat : List Char := ("it could refer to ").toList

/-- Lead-in template `/it means (.+?)\.?$/i`. -/
def meansPat : List Char := ("it means ").toList

/-- Lead-in template `/it could mean (.+?)\.?$/i`. -/
def couldMeanPat : List Char := ("it could mean ").toList

/-- `extractDefinition` (scraper.ts lines 75–111): the three lead-in templates
are tried in order; the first whose regex matches ends the search, and its
captured text (always non-empty, hence truthy) is mined for quoted spans.  A
match with no usable span returns `null` without trying later templates. -/
def extractDefinition (text : List Char) : Option (List (List Char)) :=
  match leadInScan couldReferPat text with
  | some g => defsFrom g
  | none =>
    match leadInScan meansPat text with
    | some g => defsFrom g
    | none =>
      match leadInScan couldMeanPat text with
      | some g => defsFrom g
      | none => none

/-! ## DifficultyParser (scraper.ts lines 309–330) -/

/-- Needle `"guesses"`. -/
def guessesLit : List Char := ("guesses").toList

/-- The `$("strong").each` loop: `difficultyText` starts as the empty string
and is assigned the text of every strong node containing `"guesses"`, without
any first-match guard, so the last matching node's text survives. -/
def difficultyText (strongs : List (List Char)) : List Char :=
  strongs.foldl (fun acc t => if containsSub guessesLit t then t else acc) []

/-- Literal ` guesses out of ` between the two capture groups. -/
def guessesSep : List Char := (" guesses out of ").toList

/-- Matching `\d+(?:\.\d+)?` at the head of `s`: greedy digits, then an
optional fraction taken only when a dot is directly followed by a digit.
Returns the captured characters and the remaining suffix. -/
def numTokenAt (s : List Char) : Option (List Char × List Char) :=
  let ds := s.takeWhile isDigitChar
  if ds.isEmpty then none
  else
    let r1 := s.drop ds.length
    match r1 with
    | '.' :: r2 =>
      let fs := r2.takeWhile isDigitChar
      if fs.isEmpty then some (ds, r1)
      else some (ds ++ '.' :: fs, r2.drop fs.length)
    | _ => some (ds, r1)

/-- Attempt `/(\d+(?:\.\d+)?) guesses out of (\d+)/` anchored at the head of
`s`; returns the two captured groups. -/
def difficultyMatchAt (s : List Char) : Option (List Char × List Char) :=
  match numTokenAt s with
  | none => none
  | some (g1, r) =>
    if isPrefixCL guessesSep r then
      let g2 := (r.drop guessesSep.length).takeWhile isDigitChar
      if g2.isEmpty then none else some (g1, g2)
    else none

/-- `difficultyText.match(/(\d+(?:\.\d+)?) guesses out of (\d+)/)`: leftmost
match wins. -/
def difficultyMatch : List Char → Option (List Char × List Char)
  | [] => none
  | s@(_ :: rest) =>
    match difficultyMatchAt s with
    | some m => some m
    | none => difficultyMatch rest

/-- Literal `, or ` opening the friendly-label clause. -/
def orSep : List Char := (", or ").toList

/-- Attempt `/, or ([^.]+)\./` anchored at the head of `s`. -/
def labelMatchAt (s : List Char) : Option (List Char) :=
  if isPrefixCL orSep s then
    let r := s.drop orSep.length
    let run := r.takeWhile (fun c => c != '.')
    if run.isEmpty then none
    else
      match r.drop run.length with
      | '.' :: _ => some run
      | _ => none
  else none

/-- `difficultyText.match(/, or ([^.]+)\./)?.[1] ?? null`: leftmost match. -/
def labelMatch : List Char → Option (List Char)
  | [] => none
  | s@(_ :: rest) =>
    match labelMatchAt s with
    | some m => some m
    | none => labelMatch rest

/-- Value of a digit run. -/
def digitsToNat (ds : List Char) : Nat :=
  ds.foldl (fun a c => 10 * a + (c.toNat - 48)) 0

/-- `Number.parseFloat` on a captured group of shape `\d+(\.\d+)?`, modelled
exactly as a rational. -/
def parseDecimal (s : List Char) : ℚ :=
  let ip := s.takeWhile isDigitChar
  match s.drop ip.length with
  | '.' :: fs => (digitsToNat ip : ℚ) + (digitsToNat fs : ℚ) / ((10 : ℚ) ^ fs.length)
  | _ => (digitsToNat ip : ℚ)

/-! ## HintExtractor (scraper.ts lines 238–344) -/

/-- One paragraph inside a reveal block's disclosed content: its text and the
texts of the anchors it contains (`$(p).find("a")`; `link.text()` concatenates
them). -/
structure Para where
  text : List Char
  links : List (List Char)
deriving DecidableEq

/-- One `[data-testid="reveal-block"]` element: its trigger-label text
(`[role="button"] p`), its disclosed text (`.show, .css-wndcfh`), and the
disclosed paragraphs (`.show p, .css-wndcfh p`). -/
structure Block where
  buttonText : List Char
  revealText : List Char
  paras : List Para
deriving DecidableEq

/-- The rendered page as the extraction code sees it: the reveal blocks and
the texts of the `strong` nodes, both in document order. -/
structure Page where
  blocks : List Block
  strongs : List (List Char)
deriving DecidableEq

/-- The mutable extraction variables of `fetchHintsDirectly`. -/
structure ExtractState where
  consonant : List Char
  vowel : List Char
  dictionaryName : Option (List Char)
  definition : Option (List (List Char))
deriving DecidableEq

/-- Initial extraction state: empty strings and nulls. -/
def initState : ExtractState := ⟨[], [], none, none⟩

/-- Echoed prompt stripped from a consonant reveal. -/
def giveConsonantLit : List Char := ("GIVE ME A CONSONANT").toList

/-- Echoed prompt stripped from a vowel reveal. -/
def giveVowelLit : List Char := ("GIVE ME A VOWEL").toList

/-- Needle `"consonant"`. -/
def consonantLit : List Char := ("consonant").toList

/-- Needle `"vowel"`. -/
def vowelLit : List Char := ("vowel").toList

/-- Needle `"reveal"`. -/
def revealLit : List Char := ("reveal").toList

/-- Needle `"According to"`. -/
def accordingLit : List Char := ("According to").toList

/-- Letter extraction for a consonant/vowel block: the disclosed text is
trimmed and upper-cased, the echoed prompt is removed case-insensitively, the
result trimmed again; `charAt(length - 1) || charAt(0)` stores the final
character, and the `charAt(0)` fallback only fires on the empty string, where
it is empty as well. -/
def extractLetter (prompt raw : List Char) : List Char :=
  let fullText := upperCL (trimCL raw)
  let cleanText := trimCL (removeAllCI prompt fullText)
  match cleanText.getLast? with
  | some c => [c]
  | none => []

/-- Processing of one paragraph of a definition reveal block: the first
`"According to"` paragraph with at least one anchor fixes `dictionaryName` to
the trimmed anchor text; a paragraph longer than 50 characters may fix
`definition` via `extractDefinition` while it is still null. -/
def processPara (st : ExtractState) (p : Para) : ExtractState :=
  let text := trimCL p.text
  let st1 :=
    if containsSub accordingLit text && st.dictionaryName.isNone && !p.links.isEmpty then
      { st with dictionaryName := some (trimCL p.links.flatten) }
    else st
  if 50 < text.length && st1.definition.isNone then
    match extractDefinition text with
    | some d => { st1 with definition := some d }
    | none => st1
  else st1

/-- Processing of one reveal block (`revealBlocks.each`): the trimmed,
lower-cased trigger label is classified by first matching substring among
`"consonant"`, `"vowel"`, `"reveal"`, each guarded so an already-filled field
is never overwritten. -/
def processBlock (st : ExtractState) (b : Block) : ExtractState :=
  let buttonText := lowerCL (trimCL b.buttonText)
  if containsSub consonantLit buttonText && st.consonant.isEmpty then
    { st with consonant := extractLetter giveConsonantLit b.revealText }
  else if containsSub vowelLit buttonText && st.vowel.isEmpty then
    { st with vowel := extractLetter giveVowelLit b.revealText }
  else if containsSub revealLit buttonText && st.definition.isNone then
    b.paras.foldl processPara st
  else st

/-- The record assembled by `fetchHintsDirectly` (field names from the
`HintResponse` interface, flattened). -/
structure HintResponse where
  consonant : List Char
  vowel : List Char
  difficulty : Option ℚ
  maxDifficulty : Option ℚ
  text : Option (List Char)
  definition : Option (List (List Char))
  sourceName : Option (List Char)
  sourceUrl : List Char
deriving DecidableEq

/-- The pure extraction phase of `fetchHintsDirectly` on the loaded page. -/
def extractHints (hintsUrl : List Char) (page : Page) : HintResponse :=
  let st := page.blocks.foldl processBlock initState
  let dt := difficultyText page.strongs
  let dm := difficultyMatch dt
  { consonant := st.consonant
    vowel := st.vowel
    difficulty := dm.map (fun m => parseDecimal m.1)
    maxDifficulty := dm.map (fun m => parseDecimal m.2)
    text := labelMatch dt
    definition := st.definition
    sourceName := st.dictionaryName
    sourceUrl := hintsUrl }

/-! ## VerificationBypassEngine (scraper.ts lines 149–226) -/

/-- The fixed challenge marker set tested against the page's body text. -/
def markerPresent (body : List Char) : Bool :=
  containsSub (("Thank you for your patience").toList) body ||
  containsSub (("verify access").toList) body ||
  containsSub (("captcha-delivery").toList) body ||
  containsSub (("DataDome").toList) body

/-- `maxAttempts = 60`: the attempts counter advances by 2 per scroll cycle,
so this is a 30-cycle budget. -/
def maxAttempts : Nat := 60

/-- The scroll/wait loop, fuel-indexed: `while (attempts < maxAttempts)`
performs one scroll, waits, adds 2 to `attempts`, then re-polls; a clear poll
breaks out.  `polls i` is the marker test of the re-poll in cycle `i` (0
based).  Starting from `attempts = 0` the guard fails after 30 cycles, so fuel
30 computes every run untruncated; the returned value is the final `attempts`.
The scroll direction flag only alternates log output and scroll targets, which
are collaborator effects, so it is not part of the state. -/
def loopGo (polls : Nat → Bool) : Nat → Nat → Nat → Nat
  | 0, attempts, _ => attempts
  | fuel + 1, attempts, i =>
    if attempts < maxAttempts then
      if polls i then loopGo polls fuel (attempts + 2) (i + 1)
      else attempts + 2
    else attempts

/-- Final value of `attempts` after the bypass loop. -/
def runLoop (polls : Nat → Bool) : Nat :=
  loopGo polls 30 0 0

/-- Errors of the scraping sequence (section 7 of the design). -/
inductive ScrapeError where
  | apiFailed
  | fetchFailed
  | navigation
  | verificationTimeout
  | blocked
deriving DecidableEq

/-- The verification phase: with no marker at the initial poll nothing is done
(zero cycles); otherwise the loop runs and `if (attempts >= maxAttempts)` —
checked after the loop regardless of how it ended — raises the timeout error.
On success the consumed `attempts` value is returned. -/
def runVerification (hasVerification : Bool) (polls : Nat → Bool) :
    Except ScrapeError Nat :=
  if hasVerification then
    let attempts := runLoop polls
    if maxAttempts ≤ attempts then .error .verificationTimeout
    else .ok attempts
  else .ok 0

/-! ## fetchAnswer (scraper.ts lines 31–73) -/

/-- Payload of the answer endpoint. -/
structure WordleApiResp where
  id : Int
  solution : List Char
  days_since_launch : Int
  print_date : List Char
  editor : List Char
deriving DecidableEq

/-- One entry of the derived `letters` array. -/
structure LetterEntry where
  char : Char
  status : List Char
deriving DecidableEq

/-- Status literal `"correct"`. -/
def correctLit : List Char := ("correct").toList

/-- The normalized answer record (`FormattedWordleData`). -/
structure FormattedWordleData where
  resp : WordleApiResp
  date : Nat
  letters : List LetterEntry
  error : Bool
deriving DecidableEq

/-- `fetchAnswer`: the network collaborator yields either a parsed payload or
a failed response (`none`); on success each character of `solution` becomes an
upper-cased letter entry with status `"correct"`, and `error` is false.  The
date formatting of the request URL is collaborator plumbing and not modelled. -/
def fetchAnswer (timestamp : Nat) (response : Option WordleApiResp) :
    Except ScrapeError FormattedWordleData :=
  match response with
  | none => .error .apiFailed
  | some data =>
    .ok { resp := data
          date := timestamp
          letters := data.solution.map (fun c => ⟨Char.toUpper c, correctLit⟩)
          error := false }

/-! ## fetchHintsDirectly and the orchestrator (scraper.ts lines 113–418) -/

/-- What the rendering collaborator supplies for one hints-page session:
whether navigation succeeded, the body text at the initial poll, the body
texts of the loop re-polls, the body text of the final check, and the parsed
DOM. -/
structure HintsPageSession where
  navOk : Bool
  initialBody : List Char
  bodies : Nat → List Char
  finalBody : List Char
  page : Page

/-- `fetchHintsDirectly`: navigation failure propagates; then the verification
bypass runs; then a final body poll still containing `captcha-delivery` or
`DataDome` aborts; otherwise the page is parsed and the hint record built.
The debug HTML snapshot write is a collaborator effect and not modelled. -/
def fetchHintsDirectly (hintsUrl : List Char) (s : HintsPageSession) :
    Except ScrapeError HintResponse :=
  if !s.navOk then .error .navigation
  else
    match runVerification (markerPresent s.initialBody) (fun i => markerPresent (s.bodies i)) with
    | .error e => .error e
    | .ok _ =>
      if containsSub (("captcha-delivery").toList) s.finalBody ||
         containsSub (("DataDome").toList) s.finalBody then
        .error .blocked
      else
        .ok (extractHints hintsUrl s.page)

/-- The record handed to the sink (`outputData`): the hint record plus the
capture timestamp. -/
structure SavedRecord where
  data : HintResponse
  scrapedAt : Nat
deriving DecidableEq

/-- `scrapeAndSave`: fetch the answer (re-raising its error), guard the dead
`error` flag, fetch the hints (re-raising), and only then write the single
output record to the sink.  The second component lists the sink writes the run
performed; the derivation of the date string and hints URL is collaborator
plumbing, so the URL is a parameter. -/
def scrapeAndSave (ts : Nat) (apiResponse : Option WordleApiResp)
    (hintsUrl : List Char) (session : HintsPageSession) (saveTime : Nat) :
    Except ScrapeError SavedRecord × List SavedRecord :=
  match fetchAnswer ts apiResponse with
  | .error e => (.error e, [])
  | .ok wordleData =>
    if wordleData.error then (.error .fetchFailed, [])
    else
      match fetchHintsDirectly hintsUrl session with
      | .error e => (.error e, [])
      | .ok hintData =>
        let outputData : SavedRecord := ⟨hintData, saveTime⟩
        (.ok outputData, [outputData])

/-! ## Concrete fixtures used by the verification -/

/-- `[A-Z]` by code point. -/
def isUpperAZ (c : Char) : Bool :=
  65 ≤ c.toNat && c.toNat ≤ 90

/-- Needle `"DataDome"`, one of the challenge markers. -/
def dataDomeLit : List Char := ("DataDome").toList

/-- First strong-node text of the C1 counterexample (contains `"guesses"`). -/
def strongOne : List Char := ("1 guesses out of 6").toList

/-- Second strong-node text of the C1 counterexample (contains `"guesses"`). -/
def strongTwo : List Char := ("4.5 guesses out of 6").toList

/-- A page whose strong nodes both contain `"guesses"`. -/
def strongsPageCex : Page := ⟨[], [strongOne, strongTwo]⟩

/-- A consonant reveal block whose disclosed text ends in a period. -/
def consonantBlockCex : Block :=
  ⟨("Give me a consonant").toList, ("Give me a consonant B.").toList, []⟩

/-- Page holding `consonantBlockCex`. -/
def consonantPageCex : Page := ⟨[consonantBlockCex], []⟩

/-- Page with one consonant block cleanly revealing `B`. -/
def consonantPageB : Page :=
  ⟨[⟨("Give me a consonant").toList, ("B").toList, []⟩], []⟩

/-- The DefinitionParser example exactly as the design document prints it,
with straight ASCII quotes. -/
def specExampleStraight : List Char :=
  ("It could refer to \"a bird\" or \"a movement.\"").toList

/-- The same example with typographic curly quotes, as they occur on the
scraped pages. -/
def specExampleCurly : List Char :=
  ("It could refer to “a bird” or “a movement.”").toList

/-- Expected first definition entry. -/
def aBird : List Char := ("a bird").toList

/-- Expected second definition entry. -/
def aMovement : List Char := ("a movement").toList

/-- Paragraph text of the C7 counterexample; the whole paragraph is one
anchor, so the anchor text contains `"According to"` and a comma. -/
def accordingText : List Char :=
  ("According to Merriam-Webster, the word names a large wading bird.").toList

/-- The paragraph of the C7 counterexample: its single anchor spans the whole
text. -/
def accordingParaCex : Para := ⟨accordingText, [accordingText]⟩

/-- A definition reveal block containing `accordingParaCex`. -/
def revealBlockCex : Block :=
  ⟨("Reveal the first definition").toList, [], [accordingParaCex]⟩

/-- Page holding `revealBlockCex`. -/
def sourcePageCex : Page := ⟨[revealBlockCex], []⟩

/-- Re-poll bodies for a run whose markers persist through polls 1–29 and are
gone at the 30th (final in-budget) re-poll. -/
def bodiesClearAtPoll30 : Nat → List Char :=
  fun i => if i < 29 then dataDomeLit else []

/-- Re-poll bodies for a run whose markers are gone at the 29th re-poll. -/
def bodiesClearAtPoll29 : Nat → List Char :=
  fun i => if i < 28 then dataDomeLit else []

/-- Session for the C2 failing input: challenged at the initial poll, markers
vanish exactly at the 30th re-poll. -/
def clearAt30Session : HintsPageSession :=
  ⟨true, dataDomeLit, bodiesClearAtPoll30, [], ⟨[], []⟩⟩

/-- Session whose every poll shows the `DataDome` marker. -/
def blockedSession : HintsPageSession :=
  ⟨true, dataDomeLit, fun _ => dataDomeLit, [], ⟨[], []⟩⟩

/-- Session with no challenge and an empty page. -/
def clearSession : HintsPageSession :=
  ⟨true, [], fun _ => [], [], ⟨[], []⟩⟩

/-- Answer payload used by witnesses. -/
def testResp : WordleApiResp := ⟨1, ("crane").toList, 1000, [], []⟩

/-- The `FormattedWordleData` produced from `testResp`. -/
def formattedTest : FormattedWordleData :=
  ⟨testResp, 0, (("crane").toList).map (fun c => ⟨Char.toUpper c, correctLit⟩), false⟩

/-- Page whose single strong node parses to a score but has no label clause. -/
def scoreOnlyPage : Page := ⟨[], [("3 guesses out of 6").toList]⟩

/-- Page whose single strong node has a label clause but no score pattern. -/
def labelOnlyPage : Page := ⟨[], [("guesses, or Easy.").toList]⟩

/-! ## Theorems for the claims -/

/-! ## Helper lemmas -/

theorem toNat_ofNatAux (n : Nat) (h : n.isValidChar) :
    (Char.ofNatAux n h).toNat = n := rfl

theorem toNat_toUpper (c : Char) :
    (Char.toUpper c).toNat = if 97 ≤ c.toNat ∧ c.toNat ≤ 122 then c.toNat - 32 else c.toNat := by
  unfold Char.toUpper
  split
  · next h =>
    rw [if_pos (by omega)]
    rw [Char.ofNat, dif_pos (Or.inl (by omega))]
    exact toNat_ofNatAux _ _
  · next h =>
    rw [if_neg (by omega)]

theorem isUpperAZ_toUpper_of_alpha (c : Char)
    (h : isAlphaChar (Char.toUpper c) = true) : isUpperAZ (Char.toUpper c) = true := by
  have ht := toNat_toUpper c
  simp only [isAlphaChar, isUpperAZ, Bool.or_eq_true, Bool.and_eq_true,
    decide_eq_true_eq] at h ⊢
  split at ht <;> omega

theorem mem_of_mem_trimCL {c : Char} {s : List Char} (h : c ∈ trimCL s) : c ∈ s := by
  unfold trimCL at h
  rw [List.mem_reverse] at h
  have h2 := (List.dropWhile_sublist (l := (s.dropWhile jsSpace).reverse) jsSpace).subset h
  rw [List.mem_reverse] at h2
  exact (List.dropWhile_sublist jsSpace).subset h2

theorem mem_of_mem_removeAllGo {c : Char} (pat : List Char) :
    ∀ (fuel : Nat) (s : List Char), c ∈ removeAllGo pat fuel s → c ∈ s := by
  intro fuel
  induction fuel with
  | zero => intro s h; simp only [removeAllGo] at h; exact h
  | succ n ih =>
    intro s h
    match s with
    | [] => simp only [removeAllGo] at h; exact h
    | a :: rest =>
      rw [removeAllGo] at h
      split at h
      · exact List.mem_of_mem_drop (ih _ h)
      · rcases List.mem_cons.mp h with h | h
        · simp [h]
        · exact List.mem_cons_of_mem _ (ih _ h)

theorem extractLetter_ok (prompt raw : List Char) :
    (extractLetter prompt raw).length ≤ 1 ∧
    ∀ c ∈ extractLetter prompt raw, isAlphaChar c = true → isUpperAZ c = true := by
  unfold extractLetter
  cases hl : (trimCL (removeAllCI prompt (upperCL (trimCL raw)))).getLast? with
  | none => simp only [hl]; simp
  | some c =>
    simp only [hl]
    refine ⟨by simp, ?_⟩
    intro d hd halpha
    have hdc : d = c := by simpa using hd
    subst hdc
    have hmem : d ∈ trimCL (removeAllCI prompt (upperCL (trimCL raw))) :=
      List.mem_of_getLast?_eq_some hl
    have hmem2 := mem_of_mem_removeAllGo prompt _ _ (mem_of_mem_trimCL hmem)
    obtain ⟨e, -, he⟩ := List.mem_map.mp hmem2
    rw [← he] at halpha ⊢
    exact isUpperAZ_toUpper_of_alpha e halpha

theorem processPara_letters (st : ExtractState) (p : Para) :
    (processPara st p).consonant = st.consonant ∧ (processPara st p).vowel = st.vowel := by
  unfold processPara
  dsimp only
  split <;> split <;> simp_all <;> split <;> simp_all

theorem foldl_processPara_letters (ps : List Para) (st : ExtractState) :
    (ps.foldl processPara st).consonant = st.consonant ∧
    (ps.foldl processPara st).vowel = st.vowel := by
  induction ps generalizing st with
  | nil => exact ⟨rfl, rfl⟩
  | cons p ps ih =>
    rw [List.foldl_cons]
    exact ⟨((ih _).1).trans (processPara_letters st p).1,
           ((ih _).2).trans (processPara_letters st p).2⟩

theorem processBlock_letters_ok (st : ExtractState) (b : Block)
    (h1 : st.consonant.length ≤ 1 ∧ ∀ c ∈ st.consonant, isAlphaChar c = true → isUpperAZ c = true)
    (h2 : st.vowel.length ≤ 1 ∧ ∀ c ∈ st.vowel, isAlphaChar c = true → isUpperAZ c = true) :
    ((processBlock st b).consonant.length ≤ 1 ∧
      ∀ c ∈ (processBlock st b).consonant, isAlphaChar c = true → isUpperAZ c = true) ∧
    ((processBlock st b).vowel.length ≤ 1 ∧
      ∀ c ∈ (processBlock st b).vowel, isAlphaChar c = true → isUpperAZ c = true) := by
  unfold processBlock
  dsimp only
  split
  · exact ⟨extractLetter_ok _ _, h2⟩
  · split
    · exact ⟨h1, extractLetter_ok _ _⟩
    · split
      · have hf := foldl_processPara_letters b.paras st
        rw [hf.1, hf.2]
        exact ⟨h1, h2⟩
      · exact ⟨h1, h2⟩

/-- C5 (amended): in every produced hint record the consonant and vowel
fields hold at most one character, and that character is uppercase whenever
it is alphabetic. -/
theorem extractHints_letter_invariant (hintsUrl : List Char) (page : Page) :
    ((extractHints hintsUrl page).consonant.length ≤ 1 ∧
      ∀ c ∈ (extractHints hintsUrl page).consonant, isAlphaChar c = true → isUpperAZ c = true) ∧
    ((extractHints hintsUrl page).vowel.length ≤ 1 ∧
      ∀ c ∈ (extractHints hintsUrl page).vowel, isAlphaChar c = true → isUpperAZ c = true) := by
  have main : ∀ (bs : List Block) (st : ExtractState),
      (st.consonant.length ≤ 1 ∧ ∀ c ∈ st.consonant, isAlphaChar c = true → isUpperAZ c = true) →
      (st.vowel.length ≤ 1 ∧ ∀ c ∈ st.vowel, isAlphaChar c = true → isUpperAZ c = true) →
      (((bs.foldl processBlock st).consonant.length ≤ 1 ∧
        ∀ c ∈ (bs.foldl processBlock st).consonant, isAlphaChar c = true → isUpperAZ c = true) ∧
       ((bs.foldl processBlock st).vowel.length ≤ 1 ∧
        ∀ c ∈ (bs.foldl processBlock st).vowel, isAlphaChar c = true → isUpperAZ c = true)) := by
    intro bs
    induction bs with
    | nil => intro st a b; exact ⟨a, b⟩
    | cons b bs ih =>
      intro st a hb
      rw [List.foldl_cons]
      have h := processBlock_letters_ok st b a hb
      exact ih _ h.1 h.2
  have h := main page.blocks initState (by simp [initState]) (by simp [initState])
  simpa [extractHints] using h

/-- C5 counterexample: a consonant block whose disclosed text ends in a
period stores `"."`, not the last alphabetic character `B`, so the stored
value is neither a single uppercase letter nor the empty string. -/
theorem extractHints_letter_claim_cex :
    (extractHints [] consonantPageCex).consonant = ['.'] ∧
    isAlphaChar '.' = false ∧
    (extractHints [] consonantPageCex).consonant ≠ [] ∧
    (extractHints [] consonantPageCex).consonant ≠ ['B'] := by decide

/-- Witness for the amended C5 theorem at a concrete page. -/
theorem extractHints_letter_invariant_witness :
    ('B' ∈ (extractHints [] consonantPageB).consonant) ∧ isUpperAZ 'B' = true :=
  ⟨by decide, (extractHints_letter_invariant [] consonantPageB).1.2 'B' (by decide) (by decide)⟩

theorem foldl_difficulty_no_match (post : List (List Char)) (acc : List Char)
    (hpost : ∀ t ∈ post, containsSub guessesLit t = false) :
    post.foldl (fun acc t => if containsSub guessesLit t then t else acc) acc = acc := by
  induction post generalizing acc with
  | nil => rfl
  | cons t ts ih =>
    rw [List.foldl_cons, if_neg]
    · exact ih acc (fun u hu => hpost u (List.mem_cons_of_mem _ hu))
    · simp [hpost t (List.mem_cons_self t ts)]

/-- C1 (amended): the difficulty text is the text of the LAST strong node
containing `"guesses"`: any matching node followed only by non-matching nodes
is the one used, regardless of earlier matches. -/
theorem difficultyText_last_match (pre post : List (List Char)) (s : List Char)
    (hs : containsSub guessesLit s = true)
    (hpost : ∀ t ∈ post, containsSub guessesLit t = false) :
    difficultyText (pre ++ s :: post) = s := by
  unfold difficultyText
  rw [List.foldl_append, List.foldl_cons, if_pos hs]
  exact foldl_difficulty_no_match post s hpost

theorem parseDecimal_45 : parseDecimal (("4.5").toList) = (9 : ℚ) / 2 := by
  have h1 : (("4.5").toList).takeWhile isDigitChar = ['4'] := by decide
  unfold parseDecimal
  rw [h1]
  have h2 : (("4.5").toList).drop (['4'] : List Char).length = ['.', '5'] := by decide
  dsimp only
  rw [h2]
  have h3 : digitsToNat ['4'] = 4 := by decide
  have h4 : digitsToNat ['5'] = 5 := by decide
  simp [h3, h4]
  norm_num

/-- C1 counterexample: with two strong nodes both containing `"guesses"`, the
text used is the second, not the first, and the difficulty extracted is the
second node's score. -/
theorem difficultyText_not_first_match_cex :
    containsSub guessesLit strongOne = true ∧
    containsSub guessesLit strongTwo = true ∧
    difficultyText [strongOne, strongTwo] = strongTwo ∧
    strongTwo ≠ strongOne ∧
    (extractHints [] strongsPageCex).difficulty = some ((9 : ℚ) / 2) ∧
    ((9 : ℚ) / 2) ≠ (1 : ℚ) := by
  refine ⟨by decide, by decide, by decide, by decide, ?_, by norm_num⟩
  have hm : difficultyMatch (difficultyText strongsPageCex.strongs)
      = some ((("4.5").toList), (("6").toList)) := by decide
  rw [← parseDecimal_45]
  simp [extractHints, hm]

/-- Witness for the amended C1 theorem. -/
theorem difficultyText_last_match_witness :
    difficultyText [strongOne, strongTwo] = strongTwo :=
  difficultyText_last_match [strongOne] [] strongTwo (by decide) (by simp)

theorem loopGo_all_true (polls : Nat → Bool)
    (hall : ∀ j, j < 30 → polls j = true) :
    ∀ (fuel a i : Nat), a + 2 * fuel = 60 → i + fuel = 30 →
      loopGo polls fuel a i = 60 := by
  intro fuel
  induction fuel with
  | zero =>
    intro a i ha _
    rw [loopGo]
    omega
  | succ n ih =>
    intro a i ha hi
    rw [loopGo, if_pos (by unfold maxAttempts; omega), hall i (by omega)]
    exact ih (a + 2) (i + 1) (by omega) (by omega)

theorem runVerification_all_true_timeout (polls : Nat → Bool)
    (hall : ∀ j, j < 30 → polls j = true) :
    runVerification true polls = Except.error ScrapeError.verificationTimeout := by
  unfold runVerification runLoop
  rw [if_pos rfl, loopGo_all_true polls hall 30 0 0 (by omega) (by omega)]
  rfl

/-- C3: when a challenge marker is present at the initial poll and at every
re-poll through the whole budget, `fetchHintsDirectly` fails with the
verification-timeout error, and the orchestrator propagates it without
writing any record to the sink. -/
theorem verification_timeout_propagates (hintsUrl : List Char) (s : HintsPageSession)
    (hnav : s.navOk = true)
    (hinit : markerPresent s.initialBody = true)
    (hall : ∀ i, i < 30 → markerPresent (s.bodies i) = true) :
    fetchHintsDirectly hintsUrl s = Except.error ScrapeError.verificationTimeout ∧
    ∀ (ts : Nat) (data : WordleApiResp) (saveTime : Nat),
      scrapeAndSave ts (some data) hintsUrl s saveTime =
        (Except.error ScrapeError.verificationTimeout, []) := by
  have hfetch : fetchHintsDirectly hintsUrl s = Except.error ScrapeError.verificationTimeout := by
    unfold fetchHintsDirectly
    rw [hnav, hinit, runVerification_all_true_timeout (fun i => markerPresent (s.bodies i)) hall]
    simp
  refine ⟨hfetch, ?_⟩
  intro ts data saveTime
  simp only [scrapeAndSave, fetchAnswer]
  rw [hfetch]
  simp

/-- Witness for C3 at a session whose polls all contain `DataDome`. -/
theorem verification_timeout_propagates_witness :
    fetchHintsDirectly [] blockedSession = Except.error ScrapeError.verificationTimeout :=
  (verification_timeout_propagates [] blockedSession rfl (by decide)
    (fun i _ => (by decide : markerPresent dataDomeLit = true))).1

/-- C2 (failing input of the code bug): a run challenged at the initial poll
whose markers persist exactly through re-polls 1–29 and are gone at the 30th
re-poll — the last within the 30-cycle budget — still raises the timeout
error: breaking out of the loop at the final cycle leaves `attempts` at
`maxAttempts`, and the post-loop `attempts >= maxAttempts` check fires even
though the loop observed the cleared page (and has just logged that the
verification cleared).  A run clearing one poll earlier succeeds, showing the
failure is exactly at the budget boundary. -/
theorem verification_cleared_final_poll_still_times_out :
    markerPresent (bodiesClearAtPoll30 28) = true ∧
    markerPresent (bodiesClearAtPoll30 29) = false ∧
    runLoop (fun i => markerPresent (bodiesClearAtPoll30 i)) = maxAttempts ∧
    runVerification true (fun i => markerPresent (bodiesClearAtPoll30 i)) =
      Except.error ScrapeError.verificationTimeout ∧
    fetchHintsDirectly [] clearAt30Session = Except.error ScrapeError.verificationTimeout ∧
    runVerification true (fun i => markerPresent (bodiesClearAtPoll29 i)) = Except.ok 58 := by
  decide

/-- C4: on a successful fetch the letters sequence has exactly one entry per
solution character, entrywise the upper-cased character with status
`"correct"`. -/
theorem fetchAnswer_letters (ts : Nat) (data : WordleApiResp) (r : FormattedWordleData)
    (h : fetchAnswer ts (some data) = Except.ok r) :
    r.letters.length = data.solution.length ∧
    ∀ (i : Nat) (c : Char), data.solution[i]? = some c →
      r.letters[i]? = some ⟨Char.toUpper c, correctLit⟩ := by
  have hr : r = ⟨data, ts, data.solution.map (fun c => ⟨Char.toUpper c, correctLit⟩), false⟩ := by
    unfold fetchAnswer at h
    exact (Except.ok.inj h).symm
  subst hr
  refine ⟨by simp, ?_⟩
  intro i c hc
  simp [List.getElem?_map, hc]

/-- Witness for C4 at the payload `"crane"`. -/
theorem fetchAnswer_letters_witness :
    formattedTest.letters.length = testResp.solution.length ∧
    formattedTest.letters[0]? = some ⟨'C', correctLit⟩ := by
  have h := fetchAnswer_letters 0 testResp formattedTest rfl
  refine ⟨h.1, ?_⟩
  have h2 := h.2 0 'c' rfl
  rw [h2]
  decide

/-- C6 counterexample: on the example exactly as the design document writes
it — with straight ASCII quotes — the extraction returns `null`, because the
quoted-span regex only recognizes curly quotes. -/
theorem extractDefinition_spec_example_cex :
    extractDefinition specExampleStraight = none ∧
    (none : Option (List (List Char))) ≠ some [aBird, aMovement] := by decide

/-- C6 (amended): with typographic curly quotes, as they appear on the
scraped pages, the example yields exactly the two entries, each ending in a
letter (no trailing punctuation). -/
theorem extractDefinition_curly_example :
    extractDefinition specExampleCurly = some [aBird, aMovement] ∧
    aBird.getLast? = some 'd' ∧ aMovement.getLast? = some 't' := by decide

/-- C10 helper: any non-empty result of the trailing-cleanup loop ends in a
letter. -/
theorem dropTrailingNonAlpha_getLast (s : List Char)
    (h : dropTrailingNonAlpha s ≠ []) :
    ∃ c, (dropTrailingNonAlpha s).getLast? = some c ∧ isAlphaChar c = true := by
  unfold dropTrailingNonAlpha at h ⊢
  have hrne : s.reverse.dropWhile (fun c => !isAlphaChar c) ≠ [] := by
    intro h0
    rw [h0] at h
    exact h rfl
  refine ⟨(s.reverse.dropWhile (fun c => !isAlphaChar c)).head hrne, ?_, ?_⟩
  · rw [List.getLast?_reverse, List.head?_eq_head hrne]
  · have := List.head_dropWhile_not (fun c => !isAlphaChar c) s.reverse hrne
    simpa using this

theorem defsFrom_entries (g : List Char) (ds : List (List Char))
    (h : defsFrom g = some ds) :
    ds ≠ [] ∧ ∀ d ∈ ds, d ≠ [] ∧ ∃ c, d.getLast? = some c ∧ isAlphaChar c = true := by
  unfold defsFrom at h
  dsimp only at h
  split at h
  · exact absurd h (by simp)
  · next hne =>
    have hds : ds = ((quotedSpans (trimCL g)).map cleanDef).filter (fun d => !d.isEmpty) :=
      (Option.some.inj h).symm
    subst hds
    refine ⟨by simpa using hne, ?_⟩
    intro d hd
    have hmem := List.mem_filter.mp hd
    have hne2 : d ≠ [] := by simpa using hmem.2
    obtain ⟨sp, -, hsp⟩ := List.mem_map.mp hmem.1
    refine ⟨hne2, ?_⟩
    rw [← hsp] at hne2 ⊢
    exact dropTrailingNonAlpha_getLast _ hne2

/-- C10: whenever the definition extraction returns a non-null result, the
list is non-empty and every entry is a non-empty string ending in an
alphabetic character. -/
theorem extractDefinition_entries (t : List Char) (ds : List (List Char))
    (h : extractDefinition t = some ds) :
    ds ≠ [] ∧ ∀ d ∈ ds, d ≠ [] ∧ ∃ c, d.getLast? = some c ∧ isAlphaChar c = true := by
  unfold extractDefinition at h
  cases h1 : leadInScan couldReferPat t with
  | some g => rw [h1] at h; exact defsFrom_entries g ds h
  | none =>
    rw [h1] at h
    cases h2 : leadInScan meansPat t with
    | some g => rw [h2] at h; exact defsFrom_entries g ds h
    | none =>
      rw [h2] at h
      cases h3 : leadInScan couldMeanPat t with
      | some g => rw [h3] at h; exact defsFrom_entries g ds h
      | none => rw [h3] at h; exact absurd h (by simp)

/-- Witness for C10 at the curly-quoted example input. -/
theorem extractDefinition_entries_witness :
    [aBird, aMovement] ≠ ([] : List (List Char)) ∧
    extractDefinition specExampleCurly = some [aBird, aMovement] :=
  ⟨(extractDefinition_entries specExampleCurly [aBird, aMovement] (by decide)).1,
   by decide⟩

theorem processPara_dict_some (st : ExtractState) (q : Para) (x : List Char)
    (h : st.dictionaryName = some x) : (processPara st q).dictionaryName = some x := by
  unfold processPara
  dsimp only
  split
  · next hc => rw [h] at hc; simp at hc
  · split
    · split <;> exact h
    · exact h

theorem processPara_dict_none_nomatch (st : ExtractState) (q : Para)
    (h : st.dictionaryName = none)
    (hq : containsSub accordingLit (trimCL q.text) = false ∨ q.links = []) :
    (processPara st q).dictionaryName = none := by
  unfold processPara
  dsimp only
  split
  · next hc =>
    rcases hq with hq | hq
    · rw [hq] at hc; simp at hc
    · rw [hq] at hc; simp at hc
  · split
    · split <;> exact h
    · exact h

theorem processPara_dict_sets (st : ExtractState) (p : Para)
    (h : st.dictionaryName = none)
    (hp1 : containsSub accordingLit (trimCL p.text) = true)
    (hp2 : p.links ≠ []) :
    (processPara st p).dictionaryName = some (trimCL p.links.flatten) := by
  have hC1 : (containsSub accordingLit (trimCL p.text) && st.dictionaryName.isNone
      && !p.links.isEmpty) = true := by
    rw [hp1, h]
    simp [List.isEmpty_iff, hp2]
  unfold processPara
  dsimp only
  rw [if_pos hC1]
  split
  · split <;> rfl
  · rfl

theorem foldl_processPara_dict_some (ps : List Para) (st : ExtractState) (x : List Char)
    (h : st.dictionaryName = some x) :
    (ps.foldl processPara st).dictionaryName = some x := by
  induction ps generalizing st with
  | nil => exact h
  | cons q qs ih => rw [List.foldl_cons]; exact ih _ (processPara_dict_some st q x h)

theorem foldl_processPara_dict_first (pre : List Para) (p : Para) (post : List Para)
    (st : ExtractState) (h : st.dictionaryName = none)
    (hpre : ∀ q ∈ pre, containsSub accordingLit (trimCL q.text) = false ∨ q.links = [])
    (hp1 : containsSub accordingLit (trimCL p.text) = true)
    (hp2 : p.links ≠ []) :
    ((pre ++ p :: post).foldl processPara st).dictionaryName = some (trimCL p.links.flatten) := by
  induction pre generalizing st with
  | nil =>
    rw [List.nil_append, List.foldl_cons]
    exact foldl_processPara_dict_some post _ _ (processPara_dict_sets st p h hp1 hp2)
  | cons q qs ih =>
    rw [List.cons_append, List.foldl_cons]
    exact ih _ (processPara_dict_none_nomatch st q h (hpre q (List.mem_cons_self q qs)))
      (fun u hu => hpre u (List.mem_cons_of_mem _ hu))

/-- C7 (amended): for a definition-classified reveal block, the stored source
name is the full trimmed anchor text of the first paragraph that contains
`"According to"` and has at least one anchor; no truncation at a comma is
performed, and the `"According to"` test is on the paragraph text, not the
anchor text. -/
theorem sourceName_full_link_text (hintsUrl : List Char) (strongs : List (List Char))
    (btn rv : List Char) (pre post : List Para) (p : Para)
    (hbtn1 : containsSub consonantLit (lowerCL (trimCL btn)) = false)
    (hbtn2 : containsSub vowelLit (lowerCL (trimCL btn)) = false)
    (hbtn3 : containsSub revealLit (lowerCL (trimCL btn)) = true)
    (hpre : ∀ q ∈ pre, containsSub accordingLit (trimCL q.text) = false ∨ q.links = [])
    (hp1 : containsSub accordingLit (trimCL p.text) = true)
    (hp2 : p.links ≠ []) :
    (extractHints hintsUrl ⟨[⟨btn, rv, pre ++ p :: post⟩], strongs⟩).sourceName
      = some (trimCL p.links.flatten) := by
  simp only [extractHints]
  rw [List.foldl_cons, List.foldl_nil]
  unfold processBlock
  dsimp only
  rw [hbtn1, hbtn2, hbtn3]
  simp only [Bool.false_and, Bool.true_and, if_false, if_true, Bool.and_self]
  rw [if_neg (by simp), if_neg (by simp)]
  rw [if_pos (by simp [initState])]
  exact foldl_processPara_dict_first pre p post initState rfl hpre hp1 hp2

/-- C7 counterexample: when the whole `"According to …,"` paragraph is one
anchor, the stored name is the entire trimmed anchor text — the comma and
everything after it are kept, not cut off. -/
theorem sourceName_comma_truncation_cex :
    containsSub accordingLit accordingText = true ∧
    (extractHints [] sourcePageCex).sourceName = some accordingText ∧
    accordingText.takeWhile (fun c => c != ',') ≠ accordingText := by decide

/-- Witness for the amended C7 theorem at the fixture page. -/
theorem sourceName_full_link_text_witness :
    (extractHints [] sourcePageCex).sourceName = some (trimCL accordingParaCex.links.flatten) :=
  sourceName_full_link_text [] [] (("Reveal the first definition").toList) []
    [] [] accordingParaCex (by decide) (by decide) (by decide) (by simp)
    (by decide) (by decide)

theorem fetchAnswer_ok_error (ts : Nat) (resp : Option WordleApiResp)
    (w : FormattedWordleData) (h : fetchAnswer ts resp = Except.ok w) :
    w.error = false := by
  cases resp with
  | none => exact absurd h (by simp [fetchAnswer])
  | some data =>
    unfold fetchAnswer at h
    rw [← Except.ok.inj h]

/-- C8: if the answer fetch fails its error propagates with no sink write; if
the hint fetch fails its error propagates with no sink write; and every
record that reaches the sink is the successful result of the whole
sequence. -/
theorem scrapeAndSave_atomic (ts : Nat) (resp : Option WordleApiResp)
    (hintsUrl : List Char) (session : HintsPageSession) (saveTime : Nat) :
    (∀ e, fetchAnswer ts resp = Except.error e →
      scrapeAndSave ts resp hintsUrl session saveTime = (Except.error e, [])) ∧
    (∀ w e, fetchAnswer ts resp = Except.ok w →
      fetchHintsDirectly hintsUrl session = Except.error e →
      scrapeAndSave ts resp hintsUrl session saveTime = (Except.error e, [])) ∧
    (∀ rec, rec ∈ (scrapeAndSave ts resp hintsUrl session saveTime).2 →
      (scrapeAndSave ts resp hintsUrl session saveTime).1 = Except.ok rec ∧
      (∃ h, fetchHintsDirectly hintsUrl session = Except.ok h ∧ rec = ⟨h, saveTime⟩)) := by
  refine ⟨?_, ?_, ?_⟩
  · intro e he
    simp only [scrapeAndSave]
    rw [he]
  · intro w e hw he
    simp only [scrapeAndSave]
    rw [hw]
    dsimp only
    rw [fetchAnswer_ok_error ts resp w hw, he]
    simp
  · intro rec hrec
    cases hfa : fetchAnswer ts resp with
    | error e =>
      simp only [scrapeAndSave, hfa] at hrec
      simp at hrec
    | ok w =>
      simp only [scrapeAndSave, hfa, fetchAnswer_ok_error ts resp w hfa] at hrec ⊢
      cases hfh : fetchHintsDirectly hintsUrl session with
      | error e => simp [hfh] at hrec
      | ok h =>
        simp only [hfh] at hrec ⊢
        simp at hrec
        subst hrec
        exact ⟨by simp, h, rfl, rfl⟩

/-- Witness for C8: a failed answer fetch aborts with its own error and an
empty sink. -/
theorem scrapeAndSave_atomic_witness :
    scrapeAndSave 0 none [] clearSession 0 = (Except.error ScrapeError.apiFailed, []) :=
  (scrapeAndSave_atomic 0 none [] clearSession 0).1 ScrapeError.apiFailed rfl

/-- C9: the difficulty score and the difficulty max come from the same single
regex match, so they are null together and non-null together, while the
friendly label is matched independently: pages exist realizing score without
label and label without score. -/
theorem difficulty_null_coupling :
    (∀ (hintsUrl : List Char) (page : Page),
      ((extractHints hintsUrl page).difficulty = none ↔
        (extractHints hintsUrl page).maxDifficulty = none)) ∧
    ((extractHints [] scoreOnlyPage).difficulty.isSome = true ∧
      (extractHints [] scoreOnlyPage).text = none) ∧
    ((extractHints [] labelOnlyPage).difficulty = none ∧
      (extractHints [] labelOnlyPage).text.isSome = true) := by
  refine ⟨?_, by decide, by decide⟩
  intro hintsUrl page
  simp [extractHints]

end WordleHints
